import Mathlib

/-!
Shallow embedding of `app.py` from FCM_Excel_2_JSON: an Excel → JSON
converter.  Cell values read from a spreadsheet are modelled by the `Cell`
variant type; Python/numpy floating-point numbers are modelled as exact
rationals (the values reaching the float pipeline are finite decimals, for
which the rational model is exact).  A pandas DataFrame is modelled as an
ordered list of named columns, each column a list of cells.  Fallible
operations return `Option` / `Except`.
-/

namespace FCM

/-- Whitespace as recognised by Python's `str.strip` and `\s` (ASCII part:
space, tab, newline, carriage return, form feed, vertical tab). -/
def isPySpace (c : Char) : Bool :=
  c = ' ' || c = '\t' || c = '\n' || c = '\r' || c = '\x0c' || c = '\x0b'

/-- Python `str.strip()` on a list of characters: drop whitespace from both
ends. -/
def pyStripChars (l : List Char) : List Char :=
  ((l.dropWhile isPySpace).reverse.dropWhile isPySpace).reverse

/-- Python `str.strip()`. -/
def pyStrip (s : String) : String := String.mk (pyStripChars s.data)

/-- `Series.str.replace(old, "", regex=False)` for a single-character `old`:
remove every occurrence of the character. -/
def removeChar (ch : Char) (l : List Char) : List Char :=
  l.filter (fun c => c ≠ ch)

/-- `Series.str.replace(a, b, regex=False)` for single characters: replace
every occurrence of `a` by `b`. -/
def replaceChar (a b : Char) (l : List Char) : List Char :=
  l.map (fun c => if c = a then b else c)

/-- Numeric value of a decimal digit character. -/
def digitVal (c : Char) : ℕ := c.toNat - 48

/-- Value of a digit string, most significant digit first
(`int("123") = 123` style accumulation). -/
def digitsToNat (l : List Char) : ℕ :=
  l.foldl (fun a c => 10 * a + digitVal c) 0

/-- Decimal digits of `n`, most significant first (as produced by Python's
`str` on a non-negative integer). -/
def natDigits (n : ℕ) : List Char :=
  if n < 10 then [Nat.digitChar n]
  else natDigits (n / 10) ++ [Nat.digitChar (n % 10)]
  decreasing_by
    exact Nat.div_lt_self (by omega) (by omega)

/-- Python `str` of a non-negative integer. -/
def natRepr (n : ℕ) : String := String.mk (natDigits n)

/-- Python `str` of an integer. -/
def intRepr (n : ℤ) : String :=
  if n < 0 then "-" ++ natRepr n.natAbs else natRepr n.natAbs

/-- Optional leading sign of a numeric literal: returns (is-negative,
rest). -/
def parseSign (l : List Char) : Bool × List Char :=
  match l with
  | [] => (false, [])
  | c :: t => if c = '-' then (true, t) else if c = '+' then (false, t) else (false, c :: t)

/-- Exponent part of a float literal, after the `e`/`E`: optional sign and a
non-empty digit string consuming the whole rest.  `mant` is the mantissa
value. -/
def parseExpPart (mant : ℚ) (cs : List Char) : Option ℚ :=
  let sgn := parseSign cs
  let ds := sgn.2.takeWhile Char.isDigit
  let rest := sgn.2.dropWhile Char.isDigit
  if ds.isEmpty ∨ ¬ rest.isEmpty then none
  else if sgn.1 then some (mant / 10 ^ digitsToNat ds)
  else some (mant * 10 ^ digitsToNat ds)

/-- The part of a float literal after the integer digits: a point followed
by the fractional digits, or nothing.  Returns (fractional digits, rest). -/
def parsePointPart : List Char → List Char × List Char
  | '.' :: t => (t.takeWhile Char.isDigit, t.dropWhile Char.isDigit)
  | l => ([], l)

/-- Unsigned decimal float literal: `digits [. digits]` or `. digits`,
optionally followed by an exponent, consuming the whole string. -/
def parseUnsigned (cs : List Char) : Option ℚ :=
  let d1 := cs.takeWhile Char.isDigit
  let pp := parsePointPart (cs.dropWhile Char.isDigit)
  if d1.isEmpty ∧ pp.1.isEmpty then none
  else
    let mant : ℚ := (digitsToNat d1 : ℚ) + (digitsToNat pp.1 : ℚ) / 10 ^ pp.1.length
    match pp.2 with
    | [] => some mant
    | 'e' :: t => parseExpPart mant t
    | 'E' :: t => parseExpPart mant t
    | _ => none

/-- Numeric parsing of a string as done by `pd.to_numeric` (decimal literal
with optional sign and exponent; surrounding whitespace tolerated, model of
the pandas C parser).  `none` models the NaN produced under
`errors="coerce"`. -/
def toNumericStr (s : String) : Option ℚ :=
  let sgn := parseSign (pyStripChars s.data)
  match parseUnsigned sgn.2 with
  | some q => some (if sgn.1 then -q else q)
  | none => none

/-- Round half to even at integer precision (numpy rounding). -/
def roundHalfEven (q : ℚ) : ℤ :=
  let f := q.floor
  let frac := q - f
  if frac < 1/2 then f
  else if 1/2 < frac then f + 1
  else if Even f then f else f + 1

/-- `Series.round(2)`: round to 2 decimal places (numpy half-to-even). -/
def round2 (q : ℚ) : ℚ := (roundHalfEven (q * 100) : ℚ) / 100

/-- `astype(int)` on a float: truncation toward zero (C cast). -/
def truncRat (q : ℚ) : ℤ := if 0 ≤ q then q.floor else -(-q).floor

/-- A spreadsheet cell value as seen by pandas: a string, an integer, a
floating-point number (modelled as an exact rational), or the missing
marker NaN. -/
inductive Cell where
  | str (s : String)
  | int (n : ℤ)
  | float (q : ℚ)
  | missing
deriving DecidableEq, Repr

/-- Fractional digits printed by Python `str` for a value with 2-decimal
remainder `rem` (0 ≤ rem < 100): trailing zeros dropped but at least one
digit kept (`str(3.5) = "3.5"`, `str(12.0) = "12.0"`,
`str(3.05) = "3.05"`). -/
def fracDigits (rem : ℕ) : List Char :=
  if rem = 0 then ['0']
  else if rem % 10 = 0 then [Nat.digitChar (rem / 10)]
  else [Nat.digitChar (rem / 10), Nat.digitChar (rem % 10)]

/-- Python `str` of a non-negative float whose value has at most 2 decimal
places: the integer part, a point, and the fractional digits.  Values
outside that range do not occur in cells produced by the float pipeline
(which rounds to 2 decimals); for totality they fall back to the raw
rational notation. -/
def floatReprNonneg (q : ℚ) : String :=
  if (q * 100).den = 1 then
    let m : ℕ := (q * 100).num.toNat
    String.mk (natDigits (m / 100) ++ '.' :: fracDigits (m % 100))
  else toString q

/-- Python `str` of a float. -/
def floatRepr (q : ℚ) : String :=
  if q < 0 then "-" ++ floatReprNonneg (-q) else floatReprNonneg q

/-- `astype(str)` on a single cell: Python `str` of the value; NaN prints as
`"nan"`. -/
def cellToStr (cell : Cell) : String :=
  match cell with
  | .str s => s
  | .int n => intRepr n
  | .float q => floatRepr q
  | .missing => "nan"

/-- `pd.to_numeric(..., errors="coerce")` on a single original (not
stringified) cell: numbers pass through, strings are parsed, NaN stays
NaN. -/
def toNumericCell (cell : Cell) : Option ℚ :=
  match cell with
  | .str s => toNumericStr s
  | .int n => some (n : ℚ)
  | .float q => some q
  | .missing => none

/-- The cleaning chain of the float pass, in source order: remove `%`,
turn the decimal comma into a point, remove en-dashes, remove hyphens. -/
def cleanFloatChars (l : List Char) : List Char :=
  removeChar '-' (removeChar '–' (replaceChar ',' '.' (removeChar '%' l)))

/-- Float-column treatment of one cell (`app.py` lines 90-99): stringify,
strip, clean, parse with coercion to NaN, round to 2 decimals. -/
def normFloatCell (cell : Cell) : Cell :=
  let stripped := pyStripChars (cellToStr cell).data
  let cleaned := cleanFloatChars stripped
  match toNumericStr (String.mk cleaned) with
  | none => Cell.missing
  | some q => Cell.float (round2 q)

/-- Integer-column treatment of one cell (`app.py` lines 101-105): numeric
coercion, `fillna(0)`, cast to int. -/
def normIntCell (cell : Cell) : Cell :=
  match toNumericCell cell with
  | none => Cell.int 0
  | some q => Cell.int (truncRat q)

/-- String-column treatment of one cell (`app.py` lines 84-87): stringify
and strip. -/
def normStrCell (cell : Cell) : Cell :=
  Cell.str (pyStrip (cellToStr cell))

/-- A pandas DataFrame, modelled as its ordered list of named columns. -/
abbrev Table := List (String × List Cell)

/-- Fixed sheet name. -/
def SHEET_NAME : String := "Tutti i dati"

/-- The 34 required column names, in canonical order. -/
def REQUIRED_COLUMNS : List String :=
  ["Nome", "Sq", "R", "COD", "FMld", "T", "P", "Aff%",
   "MVC", "MVF", "MVT", "MVDSt", "MVDlt", "MVAnd", "MVRnd",
   "FMC", "FMF", "FMT", "FMDSt", "FMDlt", "FMAnd", "FMRnd",
   "GF", "GFR", "GS", "GSR", "AG", "AS", "RP", "RS", "A", "E", "TIn", "ID"]

/-- Columns normalised as numbers with decimals. -/
def FLOAT_COLS : List String :=
  ["FMld", "Aff%", "MVC", "MVF", "MVT", "MVDSt", "MVDlt", "MVAnd", "MVRnd",
   "FMC", "FMF", "FMT", "FMDSt", "FMDlt", "FMAnd", "FMRnd"]

/-- Columns normalised as integers. -/
def INT_COLS : List String :=
  ["T", "P", "GF", "GFR", "GS", "GSR", "AG", "AS", "RP", "RS", "A", "E", "TIn"]

/-- Columns normalised as trimmed strings (ID treated as a string). -/
def STR_COLS : List String := ["Nome", "Sq", "R", "COD", "ID"]

/-- `normalize_df` (`app.py` lines 76-107): three passes over the columns —
trim the known string columns, then clean/parse/round the float columns,
then coerce the integer columns.  All columns are kept, extras included. -/
def normalize_df (df : Table) : Table :=
  let t1 := df.map (fun col =>
    if col.1 ∈ STR_COLS then (col.1, col.2.map normStrCell) else col)
  let t2 := t1.map (fun col =>
    if col.1 ∈ FLOAT_COLS then (col.1, col.2.map normFloatCell) else col)
  let t3 := t2.map (fun col =>
    if col.1 ∈ INT_COLS then (col.1, col.2.map normIntCell) else col)
  t3

/-- Column names of a table (`df.columns`). -/
def columnsOf (df : Table) : List String := df.map Prod.fst

/-- `ensure_required_columns` (`app.py` lines 110-112): the required column
names absent from the table, in canonical order. -/
def ensure_required_columns (df : Table) : List String :=
  REQUIRED_COLUMNS.filter (fun c => c ∉ columnsOf df)

/-- `20\d{2}` anchored at the head of the character list: a literal "20"
followed by two digits.  Returns the two digit characters and the rest. -/
def matchYearAt (cs : List Char) : Option (Char × Char × List Char) :=
  match cs with
  | a :: b :: d1 :: d2 :: rest =>
    if a = '2' ∧ b = '0' ∧ d1.isDigit ∧ d2.isDigit then some (d1, d2, rest) else none
  | _ => none

/-- One attempt of the season regex `(20\d{2})\s*[_/\-]\s*(20\d{2})` anchored
at the head of the character list; returns the two captured year strings.
Greedy `\s*` needs no backtracking here because whitespace is disjoint from
both the separator class and the digits. -/
def matchSeasonAt (cs : List Char) : Option (String × String) :=
  match matchYearAt cs with
  | none => none
  | some (d1, d2, rest) =>
    match rest.dropWhile isPySpace with
    | [] => none
    | sep :: r2 =>
      if sep = '_' ∨ sep = '/' ∨ sep = '-' then
        match matchYearAt (r2.dropWhile isPySpace) with
        | none => none
        | some (e1, e2, _) =>
          some (String.mk ['2', '0', d1, d2], String.mk ['2', '0', e1, e2])
      else none

/-- `re.search`: try the pattern at every start position, leftmost match
wins. -/
def searchSeason : List Char → Option (String × String)
  | [] => none
  | c :: rest =>
    match matchSeasonAt (c :: rest) with
    | some r => some r
    | none => searchSeason rest

/-- `extract_season_from_filename` (`app.py` lines 50-62).  `none` models
the raised `ValueError` (the PatternNotFound condition). -/
def extract_season_from_filename (stem : String) : Option (String × String) :=
  (searchSeason stem.data).map (fun p => (p.1 ++ "/" ++ p.2, p.1 ++ "_" ++ p.2))

/-- Lexicographic comparison of character lists by code point, the order
Python uses to compare strings. -/
def charListLe : List Char → List Char → Bool
  | [], _ => true
  | _ :: _, [] => false
  | a :: as, b :: bs => if a = b then charListLe as bs else decide (a < b)

/-- Python string `<=`. -/
def strLe (a b : String) : Bool := charListLe a.data b.data

/-- One entry of `seasons.json` (`app.py` lines 205-211). -/
structure Summary where
  label : String
  key : String
  file : String
  n_players : ℕ
  last_updated : String
deriving DecidableEq, Repr

/-- The manifest document (`app.py` line 218). -/
structure Manifest where
  schema_version : ℕ
  seasons : List Summary
deriving DecidableEq, Repr

/-- Keys of a Python dict built by comprehension: first-occurrence
(insertion) order, each key once. -/
def dedupKeys : List String → List String
  | [] => []
  | k :: t => k :: (dedupKeys t).filter (fun x => x ≠ k)

/-- The value a dict comprehension `{s["key"]: s for s in l}` associates to
`k`: the last summary in `l` whose key is `k`. -/
def lastWithKey (l : List Summary) (k : String) : Option Summary :=
  (l.filter (fun s => s.key = k)).getLast?

/-- The manifest-merging step (`app.py` lines 216-217): dedup by key with
last occurrence winning, then sort ascending by key. -/
def manifestMerge (summaries : List Summary) : List Summary :=
  let keys := dedupKeys (summaries.map (fun s => s.key))
  (keys.mergeSort strLe).filterMap (lastWithKey summaries)

/-- Index of the last `.` in a filename, if any (Python `str.rfind`). -/
def rfindDot (cs : List Char) : Option ℕ :=
  match cs.reverse.findIdx? (fun c => c = '.') with
  | none => none
  | some j => some (cs.length - 1 - j)

/-- `pathlib.PurePath.suffix` of a bare filename: the part from the last
dot on, provided that dot is neither the first nor the last character. -/
def pathSuffix (name : String) : String :=
  match rfindDot name.data with
  | some i =>
    if 0 < i ∧ i < name.data.length - 1 then String.mk (name.data.drop i) else ""
  | none => ""

/-- `pathlib.PurePath.stem` of a bare filename. -/
def pathStem (name : String) : String :=
  match rfindDot name.data with
  | some i =>
    if 0 < i ∧ i < name.data.length - 1 then String.mk (name.data.take i) else name
  | none => name

/-- The per-season output document (`app.py` lines 189-196). -/
structure SeasonDoc where
  schema_version : ℕ
  season_label : String
  season_key : String
  generated_at : String
  columns : List String
  players : List (List (String × Cell))
deriving DecidableEq, Repr

/-- A JSON document written by the run. -/
inductive OutDoc where
  | season (d : SeasonDoc)
  | manifest (m : Manifest)
deriving DecidableEq, Repr

/-- `len(df)`: the number of rows of a table. -/
def nRows (df : Table) : ℕ :=
  match df with
  | [] => 0
  | c :: _ => c.2.length

/-- Row `i` of a table as an ordered record (column name, cell). -/
def rowAt (df : Table) (i : ℕ) : List (String × Cell) :=
  df.map (fun col => (col.1, col.2.getD i Cell.missing))

/-- `df.to_dict(orient="records")`. -/
def docPlayers (df : Table) : List (List (String × Cell)) :=
  (List.range (nRows df)).map (rowAt df)

/-- One candidate input file together with the behaviour of the
environment on it: whether it exists as a regular file, what reading the
fixed sheet yields (`Except.error` models the per-file read exception), and
whether writing its JSON document succeeds. -/
structure FileInput where
  name : String
  isFile : Bool
  readResult : Except String Table
  writeOk : Bool

/-- Observable state accumulated by a run: log lines, successful JSON
writes (filename and content), the run's summary list, and the seen-keys
set. -/
structure RunAcc where
  log : List String
  writes : List (String × OutDoc)
  seasons : List Summary
  seen : List String
deriving Repr

/-- Append a log line (window print + logfile append). -/
def RunAcc.addLog (a : RunAcc) (m : String) : RunAcc :=
  { a with log := a.log ++ [m] }

/-- The body of the per-file loop of `_process_files` (`app.py` lines
154-212): extract the season from the stem, warn on duplicate keys, read
the sheet, validate columns, normalise unless raw mode, write the season
document, and append the summary.  Every failure skips the file. -/
def processFile (now : String) (rawMode : Bool) (acc : RunAcc) (f : FileInput) : RunAcc :=
  let acc := acc.addLog ("Leggo: " ++ f.name)
  match extract_season_from_filename (pathStem f.name) with
  | none => acc.addLog "  [WARN] Impossibile estrarre la stagione dal nome file -> file saltato"
  | some (seasonLabel, seasonKey) =>
    let acc := if seasonKey ∈ acc.seen then
        acc.addLog ("  [WARN] Stagione duplicata " ++ seasonKey)
      else acc
    let acc := { acc with seen := acc.seen ++ [seasonKey] }
    match f.readResult with
    | .error e => acc.addLog ("  [ERRORE] Impossibile leggere il foglio " ++ SHEET_NAME ++ ": " ++ e)
    | .ok df0 =>
      let missing := ensure_required_columns df0
      if missing ≠ [] then
        acc.addLog ("  [ERRORE] Colonne mancanti: " ++ String.intercalate ", " missing ++ " -> file saltato")
      else
        let df := if rawMode then df0 else normalize_df df0
        let out : SeasonDoc :=
          { schema_version := 1
            season_label := seasonLabel
            season_key := seasonKey
            generated_at := now
            columns := columnsOf df
            players := docPlayers df }
        let outName := seasonKey ++ ".json"
        let summ : Summary :=
          { label := seasonLabel
            key := seasonKey
            file := outName
            n_players := nRows df
            last_updated := now }
        if f.writeOk then
          { acc with
            writes := acc.writes ++ [(outName, OutDoc.season out)]
            seasons := acc.seasons ++ [summ]
            log := acc.log ++ ["  [OK] Generato " ++ outName] }
        else acc.addLog ("  [ERRORE] Scrittura JSON " ++ outName)

/-- The empty run state. -/
def initAcc : RunAcc := { log := [], writes := [], seasons := [], seen := [] }

/-- Filtering and sorting of the candidate files (`app.py` lines 136-138):
keep existing `.xls`/`.xlsx` files, sort case-insensitively by name
(stable, as Python `sorted`). -/
def filterSortFiles (files : List FileInput) : List FileInput :=
  (files.filter (fun f =>
    f.isFile && ((pathSuffix f.name).toLower = ".xls" || (pathSuffix f.name).toLower = ".xlsx"))).mergeSort
    (fun a b => strLe a.name.toLower b.name.toLower)

/-- The manifest step after the loop (`app.py` lines 214-225): write the
merged manifest only when at least one summary was produced. -/
def finishRun (manifestWriteOk : Bool) (acc : RunAcc) : RunAcc :=
  if acc.seasons ≠ [] then
    let m : Manifest := { schema_version := 1, seasons := manifestMerge acc.seasons }
    if manifestWriteOk then
      { acc with
        writes := acc.writes ++ [("seasons.json", OutDoc.manifest m)]
        log := acc.log ++ ["[OK] Aggiornato seasons.json"] }
    else acc.addLog "[ERRORE] Scrittura seasons.json"
  else acc.addLog "[FINE] Nessun JSON generato (nessun file valido)."

/-- `_process_files` (`app.py` lines 127-225).  `now` is the timestamp
`datetime.utcnow().isoformat(...)` taken once at the start of the run
(line 133); `manifestWriteOk` is whether the final manifest write would
succeed.  Files are filtered to existing `.xls`/`.xlsx` and sorted
case-insensitively by name; each file is processed in order; the manifest
is merged and written only when at least one summary was produced. -/
def _process_files (files : List FileInput) (now : String) (rawMode : Bool)
    (manifestWriteOk : Bool) : RunAcc :=
  let files := filterSortFiles files
  if files.isEmpty then
    initAcc.addLog "[INFO] Nessun file .xls/.xlsx valido selezionato."
  else finishRun manifestWriteOk (files.foldl (processFile now rawMode) initAcc)

/-! ### Basic character and list lemmas -/

theorem digitVal_digitChar {d : ℕ} (h : d < 10) : digitVal (Nat.digitChar d) = d := by
  revert h
  revert d
  decide

theorem isDigit_digitChar {d : ℕ} (h : d < 10) : (Nat.digitChar d).isDigit = true := by
  revert h
  revert d
  decide

theorem isPySpace_false_of_isDigit {c : Char} (h : c.isDigit = true) : isPySpace c = false := by
  by_contra hne
  have hs : isPySpace c = true := by
    cases hv : isPySpace c
    · exact absurd hv hne
    · rfl
  simp only [isPySpace, Bool.or_eq_true, decide_eq_true_eq] at hs
  rcases hs with ((((h1 | h1) | h1) | h1) | h1) | h1 <;> subst h1 <;> simp at h

theorem dropWhile_dropWhile (p : α → Bool) (l : List α) :
    (l.dropWhile p).dropWhile p = l.dropWhile p := by
  induction l with
  | nil => rfl
  | cons a t ih =>
    by_cases h : p a = true
    · simp [List.dropWhile_cons, h, ih]
    · simp only [List.dropWhile_cons, h]
      simp [h]

theorem head_not_of_dropWhile_cons {p : α → Bool} {l t : List α} {a : α}
    (h : l.dropWhile p = a :: t) : p a = false := by
  induction l with
  | nil => simp at h
  | cons b s ih =>
    rw [List.dropWhile_cons] at h
    by_cases hb : p b = true
    · rw [if_pos hb] at h
      exact ih h
    · rw [if_neg hb] at h
      cases h
      cases hv : p a
      · rfl
      · exact absurd hv hb

theorem dropWhile_eq_self_of_head? {p : α → Bool} {l : List α}
    (h : ∀ a, l.head? = some a → p a = false) : l.dropWhile p = l := by
  cases l with
  | nil => rfl
  | cons a t =>
    rw [List.dropWhile_cons, if_neg]
    rw [h a rfl]
    simp

theorem dropWhile_eq_self_of_all {p : α → Bool} {l : List α}
    (h : ∀ a ∈ l, p a = false) : l.dropWhile p = l := by
  apply dropWhile_eq_self_of_head?
  intro a ha
  cases l with
  | nil => simp at ha
  | cons b t =>
    simp only [List.head?_cons, Option.some_inj] at ha
    exact ha ▸ h b (by simp)

theorem takeWhile_eq_self_of_all {p : α → Bool} {l : List α}
    (h : ∀ a ∈ l, p a = true) : l.takeWhile p = l := by
  induction l with
  | nil => rfl
  | cons a t ih =>
    rw [List.takeWhile_cons, if_pos (h a (by simp))]
    rw [ih (fun x hx => h x (by simp [hx]))]

theorem takeWhile_append_cons {p : α → Bool} (l1 : List α) (x : α) (l2 : List α)
    (h1 : ∀ a ∈ l1, p a = true) (hx : p x = false) :
    (l1 ++ x :: l2).takeWhile p = l1 := by
  induction l1 with
  | nil => simp [List.takeWhile_cons, hx]
  | cons a t ih =>
    rw [List.cons_append, List.takeWhile_cons, if_pos (h1 a (by simp))]
    rw [ih (fun b hb => h1 b (by simp [hb]))]

theorem dropWhile_append_cons {p : α → Bool} (l1 : List α) (x : α) (l2 : List α)
    (h1 : ∀ a ∈ l1, p a = true) (hx : p x = false) :
    (l1 ++ x :: l2).dropWhile p = x :: l2 := by
  induction l1 with
  | nil => simp [List.dropWhile_cons, hx]
  | cons a t ih =>
    rw [List.cons_append, List.dropWhile_cons, if_pos (h1 a (by simp))]
    exact ih (fun b hb => h1 b (by simp [hb]))

theorem pyStripChars_of_no_space {l : List Char}
    (h : ∀ c ∈ l, isPySpace c = false) : pyStripChars l = l := by
  unfold pyStripChars
  rw [dropWhile_eq_self_of_all h]
  rw [dropWhile_eq_self_of_all (fun c hc => h c (List.mem_reverse.mp hc))]
  exact List.reverse_reverse l

theorem getLast?_dropWhile (p : α → Bool) (l : List α) (h : l.dropWhile p ≠ []) :
    (l.dropWhile p).getLast? = l.getLast? := by
  obtain ⟨t, ht⟩ := List.dropWhile_suffix (l := l) p
  conv_rhs => rw [← ht]
  rw [List.getLast?_append]
  cases hv : (l.dropWhile p).getLast? with
  | none =>
    exact absurd (List.getLast?_eq_none_iff.mp hv) h
  | some a => rfl

theorem pyStripChars_idem (l : List Char) :
    pyStripChars (pyStripChars l) = pyStripChars l := by
  cases hB : pyStripChars l with
  | nil => simp [hB, pyStripChars]
  | cons b bs =>
    -- the stripped list has a non-space head and a non-space last element
    unfold pyStripChars at hB
    have hhead : isPySpace b = false := by
      have : (List.dropWhile isPySpace ((l.dropWhile isPySpace).reverse)).getLast? = some b := by
        rw [← List.head?_reverse, hB]
        rfl
      -- b is the last of the inner dropWhile-chain, i.e. head of the original dropWhile
      have hne : List.dropWhile isPySpace ((l.dropWhile isPySpace).reverse) ≠ [] := by
        intro hcon
        rw [hcon] at this
        simp at this
      rw [getLast?_dropWhile _ _ hne] at this
      rw [List.getLast?_reverse] at this
      cases hA : l.dropWhile isPySpace with
      | nil =>
        rw [hA] at this
        simp at this
      | cons a t =>
        rw [hA] at this
        simp only [List.head?_cons, Option.some_inj] at this
        exact this ▸ head_not_of_dropWhile_cons hA
    have hlast : (b :: bs).getLast? = some ((b :: bs).getLast (by simp)) := List.getLast?_eq_getLast _ _
    have hlastns : isPySpace ((b :: bs).getLast (by simp)) = false := by
      have h2 : (b :: bs).getLast? =
          (List.dropWhile isPySpace ((l.dropWhile isPySpace).reverse)).head? := by
        rw [← hB, List.getLast?_reverse]
      cases hD : List.dropWhile isPySpace ((l.dropWhile isPySpace).reverse) with
      | nil =>
        rw [hD] at h2
        simp at h2
      | cons d ds =>
        rw [hD] at h2
        rw [hlast] at h2
        simp only [List.head?_cons, Option.some_inj] at h2
        exact h2 ▸ head_not_of_dropWhile_cons hD
    -- now strip the already-stripped list: both dropWhiles are identities
    unfold pyStripChars
    rw [dropWhile_eq_self_of_head? (p := isPySpace) (l := b :: bs)
      (fun a ha => by simp only [List.head?_cons, Option.some_inj] at ha; exact ha ▸ hhead)]
    rw [dropWhile_eq_self_of_head? (p := isPySpace) (l := (b :: bs).reverse)
      (fun a ha => by
        rw [List.head?_reverse, hlast, Option.some_inj] at ha
        exact ha ▸ hlastns)]
    exact List.reverse_reverse _

/-! ### Decimal digit round trips -/

theorem digitsToNat_foldl (a : ℕ) (l : List Char) :
    l.foldl (fun x c => 10 * x + digitVal c) a = a * 10 ^ l.length + digitsToNat l := by
  induction l generalizing a with
  | nil => simp [digitsToNat]
  | cons c t ih =>
    simp only [List.foldl_cons, digitsToNat, List.length_cons]
    rw [ih (10 * a + digitVal c), ih (10 * 0 + digitVal c)]
    ring

theorem digitsToNat_cons (c : Char) (t : List Char) :
    digitsToNat (c :: t) = digitVal c * 10 ^ t.length + digitsToNat t := by
  simp only [digitsToNat, List.foldl_cons]
  rw [digitsToNat_foldl]
  ring_nf
  simp [digitsToNat]

theorem digitsToNat_append (l1 l2 : List Char) :
    digitsToNat (l1 ++ l2) = digitsToNat l1 * 10 ^ l2.length + digitsToNat l2 := by
  simp only [digitsToNat, List.foldl_append]
  rw [digitsToNat_foldl]
  rfl

theorem natDigits_all_digit (n : ℕ) : ∀ c ∈ natDigits n, c.isDigit = true := by
  induction n using Nat.strong_induction_on with
  | _ n ih =>
    unfold natDigits
    split_ifs with h
    · intro c hc
      simp only [List.mem_singleton] at hc
      exact hc ▸ isDigit_digitChar h
    · intro c hc
      rcases List.mem_append.mp hc with hc | hc
      · exact ih (n / 10) (Nat.div_lt_self (by omega) (by omega)) c hc
      · simp only [List.mem_singleton] at hc
        exact hc ▸ isDigit_digitChar (Nat.mod_lt n (by omega))

theorem natDigits_ne_nil (n : ℕ) : natDigits n ≠ [] := by
  unfold natDigits
  split_ifs with h
  · simp
  · simp

theorem digitsToNat_natDigits (n : ℕ) : digitsToNat (natDigits n) = n := by
  induction n using Nat.strong_induction_on with
  | _ n ih =>
    unfold natDigits
    split_ifs with h
    · simp [digitsToNat_cons, digitsToNat, digitVal_digitChar h]
    · rw [digitsToNat_append]
      rw [ih (n / 10) (Nat.div_lt_self (by omega) (by omega))]
      have h1 : digitsToNat [(n % 10).digitChar] = n % 10 := by
        simp [digitsToNat, digitVal_digitChar (Nat.mod_lt n (by omega))]
      rw [h1]
      simp only [List.length_cons, List.length_nil, zero_add, pow_one]
      omega

/-! ### Parser lemmas -/

theorem dropWhile_eq_nil_of_all {p : α → Bool} {l : List α}
    (h : ∀ a ∈ l, p a = true) : l.dropWhile p = [] := by
  induction l with
  | nil => rfl
  | cons a t ih =>
    rw [List.dropWhile_cons, if_pos (h a (by simp))]
    exact ih (fun x hx => h x (by simp [hx]))

theorem parseSign_fst_false {cs : List Char} (h : '-' ∉ cs) : (parseSign cs).1 = false := by
  cases cs with
  | nil => rfl
  | cons c t =>
    have hc : ¬ (c = '-') := fun hh => h (by simp [hh])
    simp only [parseSign, if_neg hc]
    split_ifs <;> rfl

theorem parseSign_of_head_digit {c : Char} {t : List Char} (h : c.isDigit = true) :
    parseSign (c :: t) = (false, c :: t) := by
  have h1 : ¬ (c = '-') := by rintro rfl; simp at h
  have h2 : ¬ (c = '+') := by rintro rfl; simp at h
  simp only [parseSign, if_neg h1, if_neg h2]

theorem parseExpPart_nonneg {mant q : ℚ} (hm : 0 ≤ mant) (cs : List Char)
    (h : parseExpPart mant cs = some q) : 0 ≤ q := by
  simp only [parseExpPart] at h
  split_ifs at h with h1 h2
  · injection h with h
    subst h
    exact div_nonneg hm (by positivity)
  · injection h with h
    subst h
    exact mul_nonneg hm (by positivity)

theorem parseUnsigned_nonneg {cs : List Char} {q : ℚ}
    (h : parseUnsigned cs = some q) : 0 ≤ q := by
  simp only [parseUnsigned] at h
  split_ifs at h with h1
  have hm : (0 : ℚ) ≤ (digitsToNat (cs.takeWhile Char.isDigit) : ℚ) +
      (digitsToNat (parsePointPart (cs.dropWhile Char.isDigit)).1 : ℚ) /
        10 ^ (parsePointPart (cs.dropWhile Char.isDigit)).1.length := by positivity
  split at h
  all_goals
    first
    | (injection h with h; subst h; exact hm)
    | (exact parseExpPart_nonneg hm _ h)
    | simp at h

theorem mem_of_mem_pyStripChars {c : Char} {l : List Char}
    (h : c ∈ pyStripChars l) : c ∈ l := by
  unfold pyStripChars at h
  rw [List.mem_reverse] at h
  have h2 := (List.dropWhile_sublist (l := (l.dropWhile isPySpace).reverse) isPySpace).mem h
  rw [List.mem_reverse] at h2
  exact (List.dropWhile_sublist isPySpace).mem h2

theorem toNumericStr_nonneg {s : String} {q : ℚ} (hm : '-' ∉ s.data)
    (h : toNumericStr s = some q) : 0 ≤ q := by
  simp only [toNumericStr] at h
  have hcs : '-' ∉ pyStripChars s.data := fun hc => hm (mem_of_mem_pyStripChars hc)
  rw [parseSign_fst_false hcs] at h
  split at h
  · injection h with h
    subst h
    simp only [if_false, Bool.false_eq_true]
    exact parseUnsigned_nonneg (by assumption)
  · simp at h

theorem parseUnsigned_digits_point (d1 ds : List Char)
    (hd1 : ∀ c ∈ d1, c.isDigit = true) (hne : d1 ≠ [])
    (hds : ∀ c ∈ ds, c.isDigit = true) :
    parseUnsigned (d1 ++ '.' :: ds) =
      some ((digitsToNat d1 : ℚ) + (digitsToNat ds : ℚ) / 10 ^ ds.length) := by
  have hpp : parsePointPart ('.' :: ds) = (ds, []) := by
    simp only [parsePointPart]
    rw [takeWhile_eq_self_of_all hds, dropWhile_eq_nil_of_all hds]
  simp only [parseUnsigned,
    takeWhile_append_cons d1 '.' ds hd1 (by decide),
    dropWhile_append_cons d1 '.' ds hd1 (by decide), hpp]
  rw [if_neg (by simp [List.isEmpty_iff, hne])]

/-! ### Float repr and rounding lemmas -/

theorem fracDigits_ne_nil (rem : ℕ) : fracDigits rem ≠ [] := by
  unfold fracDigits
  split_ifs <;> simp

theorem fracDigits_all_digit (rem : ℕ) (h : rem < 100) :
    ∀ c ∈ fracDigits rem, c.isDigit = true := by
  unfold fracDigits
  split_ifs with h0 h10 <;> intro c hc <;> simp only [List.mem_singleton,
    List.mem_cons, List.not_mem_nil, or_false] at hc
  · exact hc ▸ (by decide)
  · exact hc ▸ isDigit_digitChar (by omega)
  · rcases hc with hc | hc
    · exact hc ▸ isDigit_digitChar (by omega)
    · exact hc ▸ isDigit_digitChar (by omega)

theorem fracDigits_val (rem : ℕ) (h : rem < 100) :
    (digitsToNat (fracDigits rem) : ℚ) / 10 ^ (fracDigits rem).length = (rem : ℚ) / 100 := by
  unfold fracDigits
  split_ifs with h0 h10
  · subst h0
    norm_num [digitsToNat, digitVal]
    decide
  · have hv : digitsToNat [Nat.digitChar (rem / 10)] = rem / 10 := by
      simp [digitsToNat, digitVal_digitChar (show rem / 10 < 10 by omega)]
    rw [hv]
    have h10' : rem / 10 * 10 = rem := by omega
    have hc : ((rem / 10 : ℕ) : ℚ) * 10 = (rem : ℚ) := by exact_mod_cast h10'
    simp only [List.length_cons, List.length_nil, zero_add, pow_one]
    rw [div_eq_div_iff (by norm_num) (by norm_num)]
    linarith
  · have hv : digitsToNat [Nat.digitChar (rem / 10), Nat.digitChar (rem % 10)] = rem := by
      simp only [digitsToNat, List.foldl_cons, List.foldl_nil,
        digitVal_digitChar (show rem / 10 < 10 by omega),
        digitVal_digitChar (show rem % 10 < 10 by omega)]
      omega
    rw [hv]
    norm_num

theorem floatRepr_data (q : ℚ) (h0 : 0 ≤ q) (h1 : (q * 100).den = 1) :
    (floatRepr q).data =
      natDigits ((q * 100).num.toNat / 100) ++ '.' :: fracDigits ((q * 100).num.toNat % 100) := by
  unfold floatRepr
  rw [if_neg (not_lt.mpr h0)]
  unfold floatReprNonneg
  rw [if_pos h1]

theorem q_eq_parts (q : ℚ) (h0 : 0 ≤ q) (h1 : (q * 100).den = 1) :
    ((q * 100).num.toNat / 100 : ℕ) + ((q * 100).num.toNat % 100 : ℕ) / (100 : ℚ) = q := by
  have hnum : ((q * 100).num : ℚ) = q * 100 := Rat.coe_int_num_of_den_eq_one h1
  have hnn : 0 ≤ (q * 100).num := Rat.num_nonneg.mpr (mul_nonneg h0 (by norm_num))
  set m := (q * 100).num.toNat with hm
  have htn : ((m : ℕ) : ℚ) = q * 100 := by
    have hz : ((m : ℤ) : ℚ) = ((q * 100).num : ℚ) := by
      rw [hm, Int.toNat_of_nonneg hnn]
    rw [← Int.cast_natCast (R := ℚ), hz, hnum]
  have hsplit : 100 * (m / 100) + m % 100 = m := by omega
  have hc : (100 : ℚ) * ((m / 100 : ℕ) : ℚ) + ((m % 100 : ℕ) : ℚ) = (m : ℚ) := by
    exact_mod_cast hsplit
  field_simp
  linarith

theorem toNumericStr_floatRepr (q : ℚ) (h0 : 0 ≤ q) (h1 : (q * 100).den = 1) :
    toNumericStr (floatRepr q) = some q := by
  have hdata := floatRepr_data q h0 h1
  set m := (q * 100).num.toNat with hm
  have hrem : m % 100 < 100 := by omega
  have hdig := natDigits_all_digit (m / 100)
  have hfd := fracDigits_all_digit (m % 100) hrem
  have hnos : ∀ c ∈ (floatRepr q).data, isPySpace c = false := by
    rw [hdata]
    intro c hc
    rcases List.mem_append.mp hc with hc | hc
    · exact isPySpace_false_of_isDigit (hdig c hc)
    · rcases List.mem_cons.mp hc with hc | hc
      · exact hc ▸ (by decide)
      · exact isPySpace_false_of_isDigit (hfd c hc)
  obtain ⟨d, ds', hds'⟩ := List.exists_cons_of_ne_nil (natDigits_ne_nil (m / 100))
  have hddig : d.isDigit = true := hdig d (by rw [hds']; simp)
  simp only [toNumericStr]
  rw [pyStripChars_of_no_space hnos, hdata, hds', List.cons_append,
    parseSign_of_head_digit hddig]
  rw [← List.cons_append, ← hds']
  rw [parseUnsigned_digits_point (natDigits (m / 100)) (fracDigits (m % 100)) hdig
    (natDigits_ne_nil _) hfd]
  rw [digitsToNat_natDigits, fracDigits_val (m % 100) hrem]
  rw [q_eq_parts q h0 h1]
  simp

theorem ratFloor_eq_intFloor (q : ℚ) : q.floor = ⌊q⌋ := by
  rw [Rat.floor_def', ← Rat.floor_def]

theorem roundHalfEven_intCast (n : ℤ) : roundHalfEven (n : ℚ) = n := by
  simp only [roundHalfEven, ratFloor_eq_intFloor, Int.floor_intCast, sub_self]
  norm_num

theorem roundHalfEven_nonneg {q : ℚ} (h : 0 ≤ q) : 0 ≤ roundHalfEven q := by
  have hf : 0 ≤ ⌊q⌋ := Int.floor_nonneg.mpr h
  simp only [roundHalfEven, ratFloor_eq_intFloor]
  split_ifs <;> omega

theorem round2_nonneg {q : ℚ} (h : 0 ≤ q) : 0 ≤ round2 q := by
  unfold round2
  apply div_nonneg _ (by norm_num)
  exact_mod_cast roundHalfEven_nonneg (mul_nonneg h (by norm_num))

theorem round2_den_one (q : ℚ) : (round2 q * 100).den = 1 := by
  unfold round2
  rw [div_mul_cancel₀ _ (by norm_num : (100 : ℚ) ≠ 0)]
  exact Rat.den_intCast _

theorem round2_of_den_one {q : ℚ} (h : (q * 100).den = 1) : round2 q = q := by
  have hnum : ((q * 100).num : ℚ) = q * 100 := Rat.coe_int_num_of_den_eq_one h
  unfold round2
  rw [← hnum, roundHalfEven_intCast, hnum]
  field_simp

theorem not_mem_removeChar (ch : Char) (l : List Char) : ch ∉ removeChar ch l := by
  intro h
  have := (List.mem_filter.mp h).2
  simp at this

theorem removeChar_eq_self {l : List Char} {ch : Char} (h : ∀ c ∈ l, c ≠ ch) :
    removeChar ch l = l :=
  List.filter_eq_self.mpr (fun a ha => by simpa using h a ha)

theorem replaceChar_eq_self {l : List Char} {a b : Char} (h : ∀ c ∈ l, c ≠ a) :
    replaceChar a b l = l := by
  induction l with
  | nil => rfl
  | cons c t ih =>
    simp only [replaceChar, List.map_cons]
    rw [if_neg (h c (by simp))]
    have := ih (fun x hx => h x (by simp [hx]))
    simp only [replaceChar] at this
    rw [this]

theorem cleanFloatChars_eq_self {l : List Char}
    (h : ∀ c ∈ l, c.isDigit = true ∨ c = '.') : cleanFloatChars l = l := by
  have hne : ∀ ch : Char, ch.isDigit = false → ch ≠ '.' → ∀ c ∈ l, c ≠ ch := by
    intro ch hd hdot c hc hcc
    subst hcc
    rcases h c hc with hh | hh
    · rw [hh] at hd
      cases hd
    · exact hdot hh
  unfold cleanFloatChars
  rw [removeChar_eq_self (hne '%' (by decide) (by decide)),
    replaceChar_eq_self (hne ',' (by decide) (by decide)),
    removeChar_eq_self (hne '–' (by decide) (by decide)),
    removeChar_eq_self (hne '-' (by decide) (by decide))]

/-! ### Per-cell normalisation properties -/

theorem hyphen_not_mem_clean (l : List Char) : '-' ∉ cleanFloatChars l :=
  not_mem_removeChar '-' _

theorem normFloatCell_cases (cell : Cell) :
    normFloatCell cell = Cell.missing ∨
      ∃ q : ℚ, normFloatCell cell = Cell.float q ∧ 0 ≤ q ∧ (q * 100).den = 1 := by
  cases hp : toNumericStr (String.mk (cleanFloatChars (pyStripChars (cellToStr cell).data))) with
  | none =>
    left
    simp only [normFloatCell, hp]
  | some q0 =>
    right
    refine ⟨round2 q0, ?_,
      round2_nonneg (toNumericStr_nonneg (hyphen_not_mem_clean _) hp), round2_den_one q0⟩
    simp only [normFloatCell, hp]

theorem normFloatCell_of_canonical (q : ℚ) (h0 : 0 ≤ q) (h1 : (q * 100).den = 1) :
    normFloatCell (Cell.float q) = Cell.float q := by
  have hclass : ∀ c ∈ (floatRepr q).data, c.isDigit = true ∨ c = '.' := by
    rw [floatRepr_data q h0 h1]
    intro c hc
    rcases List.mem_append.mp hc with hc | hc
    · exact Or.inl (natDigits_all_digit _ c hc)
    · rcases List.mem_cons.mp hc with hc | hc
      · exact Or.inr hc
      · exact Or.inl (fracDigits_all_digit _ (by omega) c hc)
  have hnos : ∀ c ∈ (floatRepr q).data, isPySpace c = false := by
    intro c hc
    rcases hclass c hc with hd | hd
    · exact isPySpace_false_of_isDigit hd
    · exact hd ▸ (by decide)
  simp only [normFloatCell, cellToStr]
  rw [pyStripChars_of_no_space hnos, cleanFloatChars_eq_self hclass]
  have hmk : String.mk (floatRepr q).data = floatRepr q := rfl
  rw [hmk, toNumericStr_floatRepr q h0 h1]
  show Cell.float (round2 q) = Cell.float q
  rw [round2_of_den_one h1]

theorem normFloatCell_missing : normFloatCell Cell.missing = Cell.missing := by
  rfl

theorem normFloatCell_idem (cell : Cell) :
    normFloatCell (normFloatCell cell) = normFloatCell cell := by
  rcases normFloatCell_cases cell with h | ⟨q, h, h0, h1⟩
  · rw [h, normFloatCell_missing]
  · rw [h, normFloatCell_of_canonical q h0 h1]

theorem normStrCell_idem (cell : Cell) :
    normStrCell (normStrCell cell) = normStrCell cell := by
  unfold normStrCell cellToStr pyStrip
  congr 1
  exact congrArg String.mk (pyStripChars_idem _)

theorem truncRat_intCast (n : ℤ) : truncRat (n : ℚ) = n := by
  unfold truncRat
  rw [ratFloor_eq_intFloor, ratFloor_eq_intFloor]
  split_ifs with h
  · exact Int.floor_intCast n
  · rw [← Int.cast_neg, Int.floor_intCast]
    omega

theorem normIntCell_idem (cell : Cell) :
    normIntCell (normIntCell cell) = normIntCell cell := by
  unfold normIntCell
  cases toNumericCell cell with
  | none =>
    show (match toNumericCell (Cell.int 0) with
      | none => Cell.int 0
      | some q => Cell.int (truncRat q)) = Cell.int 0
    simp only [toNumericCell]
    norm_num [truncRat, ratFloor_eq_intFloor]
  | some q =>
    show (match toNumericCell (Cell.int (truncRat q)) with
      | none => Cell.int 0
      | some q => Cell.int (truncRat q)) = Cell.int (truncRat q)
    simp [toNumericCell, truncRat_intCast]

/-! ### Table-level normalisation -/

theorem str_not_float : ∀ n ∈ STR_COLS, n ∉ FLOAT_COLS := by decide

theorem str_not_int : ∀ n ∈ STR_COLS, n ∉ INT_COLS := by decide

theorem float_not_str : ∀ n ∈ FLOAT_COLS, n ∉ STR_COLS := by decide

theorem float_not_int : ∀ n ∈ FLOAT_COLS, n ∉ INT_COLS := by decide

theorem int_not_str : ∀ n ∈ INT_COLS, n ∉ STR_COLS := by decide

theorem int_not_float : ∀ n ∈ INT_COLS, n ∉ FLOAT_COLS := by decide

/-- Per-column action of `normalize_df`: each column receives the
treatment of the unique typed set containing its name, or is left
untouched. -/
def normColumn (col : String × List Cell) : String × List Cell :=
  if col.1 ∈ STR_COLS then (col.1, col.2.map normStrCell)
  else if col.1 ∈ FLOAT_COLS then (col.1, col.2.map normFloatCell)
  else if col.1 ∈ INT_COLS then (col.1, col.2.map normIntCell)
  else col

/-- The three passes of `normalize_df` act independently on each column:
because the three typed column sets are pairwise disjoint, the whole
normalisation is a single per-column map. -/
theorem normalize_df_map (df : Table) : normalize_df df = df.map normColumn := by
  show ((df.map _).map _).map _ = _
  rw [List.map_map, List.map_map]
  apply List.map_congr_left
  intro col _
  by_cases h1 : col.1 ∈ STR_COLS
  · have h2 := str_not_float col.1 h1
    have h3 := str_not_int col.1 h1
    simp [normColumn, Function.comp, h1, h2, h3]
  · by_cases h2 : col.1 ∈ FLOAT_COLS
    · have h3 := float_not_int col.1 h2
      simp [normColumn, Function.comp, h1, h2, h3]
    · by_cases h3 : col.1 ∈ INT_COLS
      · simp [normColumn, Function.comp, h1, h2, h3]
      · simp [normColumn, Function.comp, h1, h2, h3]

theorem normColumn_of_str {c : String × List Cell} (h1 : c.1 ∈ STR_COLS) :
    normColumn c = (c.1, c.2.map normStrCell) := by
  unfold normColumn
  rw [if_pos h1]

theorem normColumn_of_float {c : String × List Cell} (h1 : c.1 ∉ STR_COLS)
    (h2 : c.1 ∈ FLOAT_COLS) : normColumn c = (c.1, c.2.map normFloatCell) := by
  unfold normColumn
  rw [if_neg h1, if_pos h2]

theorem normColumn_of_int {c : String × List Cell} (h1 : c.1 ∉ STR_COLS)
    (h2 : c.1 ∉ FLOAT_COLS) (h3 : c.1 ∈ INT_COLS) :
    normColumn c = (c.1, c.2.map normIntCell) := by
  unfold normColumn
  rw [if_neg h1, if_neg h2, if_pos h3]

theorem normColumn_of_plain {c : String × List Cell} (h1 : c.1 ∉ STR_COLS)
    (h2 : c.1 ∉ FLOAT_COLS) (h3 : c.1 ∉ INT_COLS) : normColumn c = c := by
  unfold normColumn
  rw [if_neg h1, if_neg h2, if_neg h3]

theorem map_normStrCell_idem (cs : List Cell) :
    List.map normStrCell (List.map normStrCell cs) = List.map normStrCell cs := by
  induction cs with
  | nil => rfl
  | cons c t ih => simp only [List.map_cons, ih, normStrCell_idem]

theorem map_normFloatCell_idem (cs : List Cell) :
    List.map normFloatCell (List.map normFloatCell cs) = List.map normFloatCell cs := by
  induction cs with
  | nil => rfl
  | cons c t ih => simp only [List.map_cons, ih, normFloatCell_idem]

theorem map_normIntCell_idem (cs : List Cell) :
    List.map normIntCell (List.map normIntCell cs) = List.map normIntCell cs := by
  induction cs with
  | nil => rfl
  | cons c t ih => simp only [List.map_cons, ih, normIntCell_idem]

theorem normColumn_idem (col : String × List Cell) :
    normColumn (normColumn col) = normColumn col := by
  by_cases h1 : col.1 ∈ STR_COLS
  · rw [normColumn_of_str h1,
      normColumn_of_str (c := (col.1, List.map normStrCell col.2)) h1]
    show (col.1, List.map normStrCell (List.map normStrCell col.2)) =
      (col.1, List.map normStrCell col.2)
    rw [map_normStrCell_idem]
  · by_cases h2 : col.1 ∈ FLOAT_COLS
    · rw [normColumn_of_float h1 h2,
        normColumn_of_float (c := (col.1, List.map normFloatCell col.2)) h1 h2]
      show (col.1, List.map normFloatCell (List.map normFloatCell col.2)) =
        (col.1, List.map normFloatCell col.2)
      rw [map_normFloatCell_idem]
    · by_cases h3 : col.1 ∈ INT_COLS
      · rw [normColumn_of_int h1 h2 h3,
          normColumn_of_int (c := (col.1, List.map normIntCell col.2)) h1 h2 h3]
        show (col.1, List.map normIntCell (List.map normIntCell col.2)) =
          (col.1, List.map normIntCell col.2)
        rw [map_normIntCell_idem]
      · rw [normColumn_of_plain h1 h2 h3, normColumn_of_plain h1 h2 h3]

/-- C6: the Value Normalizer is idempotent — applying `normalize_df` a
second time to the output of a first application yields the same table;
normalized values are fixed points of normalization. -/
theorem C6_normalizer_idempotent (df : Table) :
    normalize_df (normalize_df df) = normalize_df df := by
  rw [normalize_df_map df, normalize_df_map, List.map_map]
  apply List.map_congr_left
  intro col _
  exact normColumn_idem col

/-! ### Column-level results and claims about normalisation -/

theorem normalize_df_float_col {df : Table} {i : ℕ} {name : String} {cells : List Cell}
    (h : df[i]? = some (name, cells)) (hf : name ∈ FLOAT_COLS) :
    (normalize_df df)[i]? = some (name, cells.map normFloatCell) := by
  rw [normalize_df_map, List.getElem?_map, h]
  simp only [Option.map_some']
  rw [normColumn_of_float (c := (name, cells)) (float_not_str name hf) hf]

theorem normalize_df_int_col {df : Table} {i : ℕ} {name : String} {cells : List Cell}
    (h : df[i]? = some (name, cells)) (hf : name ∈ INT_COLS) :
    (normalize_df df)[i]? = some (name, cells.map normIntCell) := by
  rw [normalize_df_map, List.getElem?_map, h]
  simp only [Option.map_some']
  rw [normColumn_of_int (c := (name, cells)) (int_not_str name hf)
    (int_not_float name hf) hf]

theorem normFloatCell_shape (cell : Cell) :
    normFloatCell cell = Cell.missing ∨
      ∃ q : ℚ, normFloatCell cell = Cell.float (round2 q) := by
  cases hp : toNumericStr (String.mk (cleanFloatChars (pyStripChars (cellToStr cell).data))) with
  | none =>
    left
    simp only [normFloatCell, hp]
  | some q0 =>
    right
    exact ⟨q0, by simp only [normFloatCell, hp]⟩

/-- C1: in a numeric-with-decimals (float) column, every cell is
stringified, stripped, cleaned of `%`, decimal commas, en-dashes and
hyphens, parsed as a float and rounded to 2 decimals; parse failures
become the missing marker, never zero.  `"3,50%"` gives 3.5, `"12-"`
gives 12.0, `"n/a"` gives the missing marker. -/
theorem C1_float_column_normalization :
    (∀ (df : Table) (i : ℕ) (name : String) (cells : List Cell),
        df[i]? = some (name, cells) → name ∈ FLOAT_COLS →
        (normalize_df df)[i]? = some (name, cells.map normFloatCell))
      ∧ normFloatCell (Cell.str "3,50%") = Cell.float (7 / 2)
      ∧ normFloatCell (Cell.str "12-") = Cell.float 12
      ∧ normFloatCell (Cell.str "n/a") = Cell.missing
      ∧ (∀ cell : Cell, normFloatCell cell = Cell.missing ∨
          ∃ q : ℚ, normFloatCell cell = Cell.float (round2 q)) := by
  refine ⟨fun df i name cells h hf => normalize_df_float_col h hf, ?_, ?_, ?_,
    normFloatCell_shape⟩
  · with_unfolding_all rfl
  · with_unfolding_all rfl
  · with_unfolding_all rfl

/-- Witness for C1 at a concrete one-column table. -/
theorem C1_witness :
    (normalize_df [("Aff%", [Cell.str "3,50%", Cell.str "n/a"])])[0]? =
      some ("Aff%", [Cell.str "3,50%", Cell.str "n/a"].map normFloatCell) :=
  C1_float_column_normalization.1 [("Aff%", [Cell.str "3,50%", Cell.str "n/a"])]
    0 "Aff%" [Cell.str "3,50%", Cell.str "n/a"] (by rfl) (by decide)

/-- C4: in an integer column, every cell is numerically coerced and any
unparsable or missing value becomes the integer 0 — never the missing
marker — in contrast with the float treatment where unparsable values
become missing. -/
theorem C4_int_column_normalization :
    (∀ (df : Table) (i : ℕ) (name : String) (cells : List Cell),
        df[i]? = some (name, cells) → name ∈ INT_COLS →
        (normalize_df df)[i]? = some (name, cells.map normIntCell))
      ∧ (∀ cell : Cell, toNumericCell cell = none → normIntCell cell = Cell.int 0)
      ∧ normIntCell Cell.missing = Cell.int 0
      ∧ normIntCell (Cell.str "n/a") = Cell.int 0
      ∧ (∀ cell : Cell, normIntCell cell ≠ Cell.missing)
      ∧ normFloatCell (Cell.str "n/a") = Cell.missing := by
  refine ⟨fun df i name cells h hf => normalize_df_int_col h hf, ?_,
    by with_unfolding_all rfl, by with_unfolding_all rfl, ?_, by with_unfolding_all rfl⟩
  · intro cell hnone
    simp only [normIntCell, hnone]
  · intro cell
    cases hp : toNumericCell cell with
    | none => simp only [normIntCell, hp]; exact fun h => Cell.noConfusion h
    | some q => simp only [normIntCell, hp]; exact fun h => Cell.noConfusion h

/-- Witness for C4 at a concrete one-column table. -/
theorem C4_witness :
    (normalize_df [("T", [Cell.str "n/a", Cell.missing])])[0]? =
      some ("T", [Cell.str "n/a", Cell.missing].map normIntCell) :=
  C4_int_column_normalization.1 [("T", [Cell.str "n/a", Cell.missing])]
    0 "T" [Cell.str "n/a", Cell.missing] (by rfl) (by decide)

/-- C10: after normalization every value of a float column is either the
missing marker or a non-negative number: hyphen removal strips minus signs
before parsing, so `"-3,5"` normalizes to +3.5. -/
theorem C10_float_column_nonnegative :
    (∀ (df : Table) (i : ℕ) (name : String) (cells : List Cell),
        df[i]? = some (name, cells) → name ∈ FLOAT_COLS →
        ∃ cells' : List Cell, (normalize_df df)[i]? = some (name, cells') ∧
          ∀ c ∈ cells', c = Cell.missing ∨ ∃ q : ℚ, c = Cell.float q ∧ 0 ≤ q)
      ∧ normFloatCell (Cell.str "-3,5") = Cell.float (7 / 2)
      ∧ normFloatCell (Cell.float (-(7 / 2))) = Cell.float (7 / 2) := by
  refine ⟨?_, by with_unfolding_all rfl, by with_unfolding_all rfl⟩
  intro df i name cells h hf
  refine ⟨cells.map normFloatCell, normalize_df_float_col h hf, ?_⟩
  intro c hc
  obtain ⟨x, _, hx⟩ := List.mem_map.mp hc
  rcases normFloatCell_cases x with hmiss | ⟨q, hq, h0, _⟩
  · exact Or.inl (hx ▸ hmiss)
  · exact Or.inr ⟨q, hx ▸ hq, h0⟩

/-- Witness for C10 at a concrete one-column table with a negative cell. -/
theorem C10_witness :
    ∃ cells' : List Cell,
      (normalize_df [("MVC", [Cell.str "-3,5"])])[0]? = some ("MVC", cells') ∧
        ∀ c ∈ cells', c = Cell.missing ∨ ∃ q : ℚ, c = Cell.float q ∧ 0 ≤ q :=
  C10_float_column_nonnegative.1 [("MVC", [Cell.str "-3,5"])] 0 "MVC"
    [Cell.str "-3,5"] (by rfl) (by decide)

/-! ### Schema validation (C3) -/

/-- A table containing every required column except `COD` and `ID`,
plus unrelated extra columns. -/
def tableMissingCodId : Table :=
  (REQUIRED_COLUMNS.filter (fun c => c ≠ "COD" ∧ c ≠ "ID")).map (fun c => (c, []))
    ++ [("Extra1", []), ("Unrelated", [])]

/-- C3: schema validation is a pure function returning exactly the required
column names absent from the table, in canonical required-column order
(a sublist of the 34-name required list), regardless of extra columns; the
empty list means valid.  The model is purely functional, so the input table
is never mutated. -/
theorem C3_schema_validation :
    (∀ df : Table, (ensure_required_columns df).Sublist REQUIRED_COLUMNS)
      ∧ (∀ (df : Table) (c : String),
          c ∈ ensure_required_columns df ↔ c ∈ REQUIRED_COLUMNS ∧ c ∉ columnsOf df)
      ∧ REQUIRED_COLUMNS.length = 34
      ∧ ensure_required_columns tableMissingCodId = ["COD", "ID"] := by
  refine ⟨fun df => List.filter_sublist _, ?_, by decide, by decide⟩
  intro df c
  rw [ensure_required_columns, List.mem_filter]
  simp

/-! ### Season extraction (C2, C7) -/

theorem matchSeasonAt_nil : matchSeasonAt [] = none := rfl

theorem searchSeason_eq_none_iff (l : List Char) :
    searchSeason l = none ↔ ∀ i : ℕ, matchSeasonAt (l.drop i) = none := by
  induction l with
  | nil =>
    simp [searchSeason, matchSeasonAt_nil]
  | cons c rest ih =>
    cases h : matchSeasonAt (c :: rest) with
    | some r =>
      simp only [searchSeason, h]
      constructor
      · intro hc
        cases hc
      · intro hall
        have := hall 0
        simp only [List.drop_zero] at this
        rw [h] at this
        cases this
    | none =>
      simp only [searchSeason, h]
      rw [ih]
      constructor
      · intro hall i
        cases i with
        | zero => simpa using h
        | succ i => simpa using hall i
      · intro hall i
        have := hall (i + 1)
        simpa using this

theorem searchSeason_first {l : List Char} {i : ℕ} {r : String × String}
    (h : matchSeasonAt (l.drop i) = some r)
    (hmin : ∀ j < i, matchSeasonAt (l.drop j) = none) :
    searchSeason l = some r := by
  induction l generalizing i with
  | nil =>
    rw [List.drop_nil, matchSeasonAt_nil] at h
    cases h
  | cons c rest ih =>
    cases i with
    | zero =>
      rw [List.drop_zero] at h
      simp only [searchSeason, h]
    | succ i =>
      have h0 : matchSeasonAt (c :: rest) = none := by
        simpa using hmin 0 (Nat.succ_pos i)
      simp only [searchSeason, h0]
      apply ih (i := i)
      · simpa using h
      · intro j hj
        simpa using hmin (j + 1) (by omega)

theorem matchYearAt_some {cs : List Char} {d1 d2 : Char} {rest : List Char}
    (h : matchYearAt cs = some (d1, d2, rest)) :
    d1.isDigit = true ∧ d2.isDigit = true ∧ cs = '2' :: '0' :: d1 :: d2 :: rest := by
  unfold matchYearAt at h
  split at h
  next a b x y r =>
    split_ifs at h with hc
    obtain ⟨ha, hb, hx, hy⟩ := hc
    injection h with h
    obtain ⟨rfl, h2⟩ := Prod.mk.injEq .. |>.mp h
    obtain ⟨rfl, rfl⟩ := Prod.mk.injEq .. |>.mp h2
    exact ⟨hx, hy, by rw [ha, hb]⟩
  next => cases h

theorem matchSeasonAt_shape {cs : List Char} {y1 y2 : String}
    (h : matchSeasonAt cs = some (y1, y2)) :
    ∃ d1 d2 e1 e2 : Char, (d1.isDigit ∧ d2.isDigit ∧ e1.isDigit ∧ e2.isDigit) ∧
      y1 = String.mk ['2', '0', d1, d2] ∧ y2 = String.mk ['2', '0', e1, e2] := by
  unfold matchSeasonAt at h
  cases hy : matchYearAt cs with
  | none =>
    simp only [hy] at h
    cases h
  | some v =>
    obtain ⟨d1, d2, rest⟩ := v
    obtain ⟨hd1, hd2, -⟩ := matchYearAt_some hy
    simp only [hy] at h
    split at h
    next => cases h
    next sep r2 heq =>
      split_ifs at h with hsep
      cases hy2 : matchYearAt (r2.dropWhile isPySpace) with
      | none =>
        simp only [hy2] at h
        cases h
      | some w =>
        obtain ⟨e1, e2, tail⟩ := w
        obtain ⟨he1, he2, -⟩ := matchYearAt_some hy2
        simp only [hy2] at h
        injection h with h
        injection h with hy1v hy2v
        exact ⟨d1, d2, e1, e2, ⟨hd1, hd2, he1, he2⟩, hy1v.symm, hy2v.symm⟩

/-- C7: season extraction fails (the `PatternNotFound` condition, modelled
as `none`) exactly when no start position of the stem matches the season
pattern; for a matching stem it does not fail.  `"report_finale"` fails. -/
theorem C7_extraction_failure :
    (∀ stem : String, extract_season_from_filename stem = none ↔
        ∀ i : ℕ, matchSeasonAt (stem.data.drop i) = none)
      ∧ extract_season_from_filename "report_finale" = none := by
  constructor
  · intro stem
    rw [extract_season_from_filename, Option.map_eq_none']
    exact searchSeason_eq_none_iff _
  · decide

/-- C2: for a stem whose first season-pattern match (two 4-digit years
beginning with 20, separated by `_`, `-` or `/` optionally padded with
whitespace, years not required to be consecutive) yields years `y1` and
`y2`, extraction returns the label `y1/y2` and the key `y1_y2`. -/
theorem C2_season_extraction :
    (∀ (stem : String) (i : ℕ) (y1 y2 : String),
        matchSeasonAt (stem.data.drop i) = some (y1, y2) →
        (∀ j < i, matchSeasonAt (stem.data.drop j) = none) →
        extract_season_from_filename stem = some (y1 ++ "/" ++ y2, y1 ++ "_" ++ y2))
      ∧ (∀ (cs : List Char) (y1 y2 : String), matchSeasonAt cs = some (y1, y2) →
          ∃ d1 d2 e1 e2 : Char, (d1.isDigit ∧ d2.isDigit ∧ e1.isDigit ∧ e2.isDigit) ∧
            y1 = String.mk ['2', '0', d1, d2] ∧ y2 = String.mk ['2', '0', e1, e2])
      ∧ extract_season_from_filename "Dati_2021_2022_v2" = some ("2021/2022", "2021_2022")
      ∧ extract_season_from_filename "2020_2025" = some ("2020/2025", "2020_2025") := by
  refine ⟨?_, fun cs y1 y2 h => matchSeasonAt_shape h, by decide, by decide⟩
  intro stem i y1 y2 h hmin
  rw [extract_season_from_filename, searchSeason_first h hmin]
  rfl

/-- Witness for C2: the first match of `"Dati_2021_2022_v2"` starts at
index 5 and gives years 2021 and 2022. -/
theorem C2_witness :
    extract_season_from_filename "Dati_2021_2022_v2" = some ("2021/2022", "2021_2022") :=
  C2_season_extraction.1 "Dati_2021_2022_v2" 5 "2021" "2022" (by decide) (by decide)

/-! ### Manifest merging (C5) -/

theorem charListLe_total (a b : List Char) :
    charListLe a b = true ∨ charListLe b a = true := by
  induction a generalizing b with
  | nil => exact Or.inl rfl
  | cons x xs ih =>
    cases b with
    | nil => exact Or.inr rfl
    | cons y ys =>
      by_cases hxy : x = y
      · subst hxy
        simp only [charListLe, if_pos rfl]
        exact ih ys
      · rcases lt_or_gt_of_ne hxy with hlt | hgt
        · left
          simp only [charListLe, if_neg hxy]
          exact decide_eq_true hlt
        · right
          simp only [charListLe, if_neg (Ne.symm hxy)]
          exact decide_eq_true hgt

theorem charListLe_trans {a b c : List Char} (h1 : charListLe a b = true)
    (h2 : charListLe b c = true) : charListLe a c = true := by
  induction a generalizing b c with
  | nil => rfl
  | cons x xs ih =>
    cases b with
    | nil => simp [charListLe] at h1
    | cons y ys =>
      cases c with
      | nil => simp [charListLe] at h2
      | cons z zs =>
        by_cases hxy : x = y
        · subst hxy
          rw [charListLe, if_pos rfl] at h1
          by_cases hyz : x = z
          · subst hyz
            rw [charListLe, if_pos rfl] at h2 ⊢
            exact ih h1 h2
          · rw [charListLe, if_neg hyz] at h2 ⊢
            exact h2
        · rw [charListLe, if_neg hxy] at h1
          have hxy' : x < y := of_decide_eq_true h1
          by_cases hyz : y = z
          · subst hyz
            rw [charListLe, if_neg hxy]
            exact decide_eq_true hxy'
          · rw [charListLe, if_neg hyz] at h2
            have hyz' : y < z := of_decide_eq_true h2
            have hxz : x < z := lt_trans hxy' hyz'
            rw [charListLe, if_neg (ne_of_lt hxz)]
            exact decide_eq_true hxz

theorem strLe_total (a b : String) : strLe a b = true ∨ strLe b a = true :=
  charListLe_total a.data b.data

theorem strLe_trans {a b c : String} (h1 : strLe a b = true) (h2 : strLe b c = true) :
    strLe a c = true :=
  charListLe_trans h1 h2

theorem mem_dedupKeys {x : String} {l : List String} : x ∈ dedupKeys l ↔ x ∈ l := by
  induction l with
  | nil => simp [dedupKeys]
  | cons k t ih =>
    simp only [dedupKeys, List.mem_cons]
    constructor
    · rintro (rfl | hx)
      · exact Or.inl rfl
      · exact Or.inr (ih.mp (List.mem_filter.mp hx).1)
    · rintro (rfl | hx)
      · exact Or.inl rfl
      · by_cases hxk : x = k
        · exact Or.inl hxk
        · refine Or.inr (List.mem_filter.mpr ⟨ih.mpr hx, ?_⟩)
          simpa using hxk

theorem dedupKeys_nodup (l : List String) : (dedupKeys l).Nodup := by
  induction l with
  | nil => exact List.nodup_nil
  | cons k t ih =>
    refine List.Nodup.cons ?_ (List.Nodup.filter _ ih)
    intro hmem
    have := (List.mem_filter.mp hmem).2
    simp at this

theorem lastWithKey_of_mem {l : List Summary} {k : String}
    (h : k ∈ l.map (fun s => s.key)) :
    ∃ s : Summary, lastWithKey l k = some s ∧ s.key = k := by
  obtain ⟨s0, hs0, hk0⟩ := List.mem_map.mp h
  have hne : l.filter (fun s => s.key = k) ≠ [] := by
    intro hnil
    have : s0 ∈ l.filter (fun s => s.key = k) :=
      List.mem_filter.mpr ⟨hs0, by simp [hk0]⟩
    rw [hnil] at this
    cases this
  obtain ⟨s, hs⟩ := Option.ne_none_iff_exists'.mp
    (mt List.getLast?_eq_none_iff.mp hne)
  refine ⟨s, hs, ?_⟩
  have hmem : s ∈ l.filter (fun x => x.key = k) := by
    obtain ⟨ys, hys⟩ := List.getLast?_eq_some_iff.mp hs
    rw [hys]
    simp
  simpa using (List.mem_filter.mp hmem).2

theorem lastWithKey_mem {l : List Summary} {k : String} {s : Summary}
    (h : lastWithKey l k = some s) : s ∈ l ∧ s.key = k := by
  have hmem : s ∈ l.filter (fun x => x.key = k) := by
    obtain ⟨ys, hys⟩ := List.getLast?_eq_some_iff.mp h
    rw [hys]
    simp
  obtain ⟨hl, hk⟩ := List.mem_filter.mp hmem
  exact ⟨hl, by simpa using hk⟩

theorem manifestMerge_mem_iff (l : List Summary) (s : Summary) :
    s ∈ manifestMerge l ↔ lastWithKey l s.key = some s := by
  constructor
  · intro hmem
    obtain ⟨k, _, hk⟩ := List.mem_filterMap.mp hmem
    obtain ⟨-, hkey⟩ := lastWithKey_mem hk
    rw [← hkey] at hk
    exact hk
  · intro h
    obtain ⟨hl, -⟩ := lastWithKey_mem h
    refine List.mem_filterMap.mpr ⟨s.key, ?_, h⟩
    refine (List.mergeSort_perm _ strLe).mem_iff.mpr ?_
    exact mem_dedupKeys.mpr (List.mem_map.mpr ⟨s, hl, rfl⟩)

theorem map_key_filterMap_lastWithKey (l : List Summary) (ks : List String)
    (hall : ∀ k ∈ ks, k ∈ l.map (fun s => s.key)) :
    (ks.filterMap (lastWithKey l)).map (fun s => s.key) = ks := by
  induction ks with
  | nil => rfl
  | cons k t ih =>
    obtain ⟨s, hs, hkey⟩ := lastWithKey_of_mem (hall k (by simp))
    rw [List.filterMap_cons, hs, List.map_cons, hkey]
    rw [ih (fun x hx => hall x (by simp [hx]))]

theorem manifestMerge_keys (l : List Summary) :
    (manifestMerge l).map (fun s => s.key) =
      (dedupKeys (l.map (fun s => s.key))).mergeSort strLe := by
  apply map_key_filterMap_lastWithKey
  intro k hk
  exact mem_dedupKeys.mp ((List.mergeSort_perm _ strLe).mem_iff.mp hk)

/-- Three example summaries: one for season 2022/2023 and two (distinct)
for season 2021/2022. -/
def exSummaryA : Summary :=
  { label := "2022/2023", key := "2022_2023", file := "2022_2023.json",
    n_players := 10, last_updated := "t1" }

def exSummaryB : Summary :=
  { label := "2021/2022", key := "2021_2022", file := "2021_2022.json",
    n_players := 11, last_updated := "t1" }

def exSummaryC : Summary :=
  { label := "2021/2022", key := "2021_2022", file := "2021_2022.json",
    n_players := 12, last_updated := "t2" }

/-- C5: the manifest merger is a pure function of the run summary list:
entries are deduplicated by key with the last occurrence winning, then
sorted strictly ascending by key.  On summaries with keys 2022_2023,
2021_2022, 2021_2022 it returns exactly the 2 entries sorted by key with
the 2021_2022 entry taken from the later summary. -/
theorem C5_manifest_merge :
    (∀ l : List Summary,
        ((manifestMerge l).map (fun s => s.key)).Pairwise
          (fun a b => strLe a b = true ∧ a ≠ b))
      ∧ (∀ (l : List Summary) (s : Summary),
          s ∈ manifestMerge l ↔ lastWithKey l s.key = some s)
      ∧ manifestMerge [exSummaryA, exSummaryB, exSummaryC] = [exSummaryC, exSummaryA] := by
  refine ⟨?_, manifestMerge_mem_iff, by with_unfolding_all rfl⟩
  intro l
  rw [manifestMerge_keys]
  have hsorted : ((dedupKeys (l.map (fun s => s.key))).mergeSort strLe).Pairwise
      (fun a b => strLe a b = true) := by
    apply List.sorted_mergeSort
    · intro a b c hab hbc
      exact strLe_trans hab hbc
    · intro a b
      rcases strLe_total a b with h | h <;> simp [h]
  have hnodup : ((dedupKeys (l.map (fun s => s.key))).mergeSort strLe).Nodup :=
    (List.mergeSort_perm _ strLe).nodup_iff.mpr (dedupKeys_nodup _)
  exact hsorted.and hnodup

/-! ### Batch orchestrator invariants (C8, C9) -/

theorem processFile_step (now : String) (raw : Bool) (acc : RunAcc) (f : FileInput) :
    ((processFile now raw acc f).writes = acc.writes ∧
        (processFile now raw acc f).seasons = acc.seasons)
      ∨ ∃ (fn : String) (d : SeasonDoc) (sm : Summary),
          (processFile now raw acc f).writes = acc.writes ++ [(fn, OutDoc.season d)] ∧
          (processFile now raw acc f).seasons = acc.seasons ++ [sm] ∧
          d.generated_at = now ∧ sm.last_updated = now := by
  unfold processFile
  split
  next => left; simp [RunAcc.addLog]
  next lbl key heq =>
    simp only [RunAcc.addLog]
    split
    next e =>
      left
      split_ifs <;> simp
    next df0 =>
      split_ifs <;>
        first
        | (left; constructor <;> rfl)
        | (right; exact ⟨_, _, _, rfl, rfl, rfl, rfl⟩)

/-- Loop invariant of `_process_files`: each successful file contributes
exactly one season-document write and one summary, both carrying the run
timestamp; nothing else is written during the loop. -/
def RunInv (now : String) (acc : RunAcc) : Prop :=
  acc.writes.length = acc.seasons.length ∧
  (∀ fn d, (fn, OutDoc.season d) ∈ acc.writes → d.generated_at = now) ∧
  (∀ s ∈ acc.seasons, s.last_updated = now) ∧
  (∀ w ∈ acc.writes, ∃ (fn : String) (d : SeasonDoc), w = (fn, OutDoc.season d))

theorem processFile_inv {now : String} {raw : Bool} {acc : RunAcc} {f : FileInput}
    (h : RunInv now acc) : RunInv now (processFile now raw acc f) := by
  obtain ⟨hlen, hdoc, hsum, hshape⟩ := h
  rcases processFile_step now raw acc f with ⟨hw, hs⟩ | ⟨fn, d, sm, hw, hs, hd, hsm⟩
  · exact ⟨by rw [hw, hs, hlen], by rw [hw]; exact hdoc, by rw [hs]; exact hsum,
      by rw [hw]; exact hshape⟩
  · refine ⟨by rw [hw, hs]; simp [hlen], ?_, ?_, ?_⟩
    · rw [hw]
      intro fn' d' hmem
      rcases List.mem_append.mp hmem with hmem | hmem
      · exact hdoc fn' d' hmem
      · simp only [List.mem_singleton] at hmem
        obtain ⟨h1, h2⟩ := Prod.mk.injEq .. |>.mp hmem
        injection h2 with h2
        exact h2 ▸ hd
    · rw [hs]
      intro s hsmem
      rcases List.mem_append.mp hsmem with hmem | hmem
      · exact hsum s hmem
      · simp only [List.mem_singleton] at hmem
        exact hmem ▸ hsm
    · rw [hw]
      intro w hmem
      rcases List.mem_append.mp hmem with hmem | hmem
      · exact hshape w hmem
      · simp only [List.mem_singleton] at hmem
        exact ⟨fn, d, hmem⟩

theorem foldl_processFile_inv (now : String) (raw : Bool) :
    ∀ (files : List FileInput) (acc : RunAcc), RunInv now acc →
      RunInv now (files.foldl (processFile now raw) acc) := by
  intro files
  induction files with
  | nil => exact fun acc h => h
  | cons f t ih => exact fun acc h => ih _ (processFile_inv h)

theorem initAcc_inv (now : String) : RunInv now initAcc :=
  ⟨rfl, fun _ _ h => absurd h (List.not_mem_nil _),
    fun _ h => absurd h (List.not_mem_nil _),
    fun _ h => absurd h (List.not_mem_nil _)⟩

theorem finishRun_seasons (mOk : Bool) (acc : RunAcc) :
    (finishRun mOk acc).seasons = acc.seasons := by
  unfold finishRun
  split_ifs <;> simp [RunAcc.addLog]

theorem finishRun_writes (mOk : Bool) (acc : RunAcc) :
    (finishRun mOk acc).writes = acc.writes ∨
      (mOk = true ∧ acc.seasons ≠ [] ∧
        (finishRun mOk acc).writes = acc.writes ++
          [("seasons.json",
            OutDoc.manifest { schema_version := 1, seasons := manifestMerge acc.seasons })]) := by
  unfold finishRun
  split_ifs with h1 h2
  · exact Or.inr ⟨h2, h1, rfl⟩
  · exact Or.inl (by simp [RunAcc.addLog])
  · exact Or.inl (by simp [RunAcc.addLog])

theorem finishRun_writes_manifest {mOk : Bool} {acc : RunAcc} (hm : mOk = true)
    (hne : acc.seasons ≠ []) :
    (finishRun mOk acc).writes = acc.writes ++
      [("seasons.json",
        OutDoc.manifest { schema_version := 1, seasons := manifestMerge acc.seasons })] := by
  unfold finishRun
  rw [if_pos hne, if_pos hm]

/-- C8: if a run produces zero summaries, nothing is written at all — in
particular the manifest `seasons.json` is not written or overwritten; and
the manifest is written (when its write succeeds) only in runs that
produced at least one summary. -/
theorem C8_no_manifest_without_summaries :
    ∀ (files : List FileInput) (now : String) (raw mOk : Bool),
      ((_process_files files now raw mOk).seasons = [] →
        (_process_files files now raw mOk).writes = [])
      ∧ (mOk = true → (_process_files files now raw mOk).seasons ≠ [] →
          "seasons.json" ∈ ((_process_files files now raw mOk).writes.map Prod.fst)) := by
  intro files now raw mOk
  have hrw : _process_files files now raw mOk =
      if (filterSortFiles files).isEmpty = true then
        initAcc.addLog "[INFO] Nessun file .xls/.xlsx valido selezionato."
      else finishRun mOk ((filterSortFiles files).foldl (processFile now raw) initAcc) := rfl
  rw [hrw]
  by_cases hempty : (filterSortFiles files).isEmpty = true
  case pos =>
    rw [if_pos hempty]
    constructor
    · intro _
      rfl
    · intro _ hne
      exact absurd rfl hne
  case neg =>
    rw [if_neg hempty]
    obtain ⟨hlen, hdoc, hsum, hshape⟩ :=
      foldl_processFile_inv now raw (filterSortFiles files) initAcc (initAcc_inv now)
    set acc := (filterSortFiles files).foldl (processFile now raw) initAcc with hacc
    constructor
    · intro hz
      rw [finishRun_seasons] at hz
      have hw0 : acc.writes = [] := by
        rw [hz] at hlen
        exact List.length_eq_zero.mp hlen
      rcases finishRun_writes mOk acc with hw | ⟨-, hne2, -⟩
      · rw [hw, hw0]
      · exact absurd hz hne2
    · intro hm hne2
      rw [finishRun_seasons] at hne2
      rw [finishRun_writes_manifest hm hne2]
      simp

/-- C9: the run timestamp is computed once before the loop, so every
season document written in a run carries it as `generated_at`, every
summary carries it as `last_updated`, and so does every entry of the
written manifest. -/
theorem C9_single_run_timestamp :
    ∀ (files : List FileInput) (now : String) (raw mOk : Bool),
      (∀ fn d, (fn, OutDoc.season d) ∈ (_process_files files now raw mOk).writes →
          d.generated_at = now)
      ∧ (∀ s ∈ (_process_files files now raw mOk).seasons, s.last_updated = now)
      ∧ (∀ fn m, (fn, OutDoc.manifest m) ∈ (_process_files files now raw mOk).writes →
          ∀ s ∈ m.seasons, s.last_updated = now) := by
  intro files now raw mOk
  have hrw : _process_files files now raw mOk =
      if (filterSortFiles files).isEmpty = true then
        initAcc.addLog "[INFO] Nessun file .xls/.xlsx valido selezionato."
      else finishRun mOk ((filterSortFiles files).foldl (processFile now raw) initAcc) := rfl
  rw [hrw]
  by_cases hempty : (filterSortFiles files).isEmpty = true
  case pos =>
    rw [if_pos hempty]
    refine ⟨?_, ?_, ?_⟩
    · intro fn d h
      cases h
    · intro s h
      cases h
    · intro fn m h
      cases h
  case neg =>
    rw [if_neg hempty]
    obtain ⟨hlen, hdoc, hsum, hshape⟩ :=
      foldl_processFile_inv now raw (filterSortFiles files) initAcc (initAcc_inv now)
    set acc := (filterSortFiles files).foldl (processFile now raw) initAcc with hacc
    have hwrites : ∀ p : String × OutDoc, p ∈ (finishRun mOk acc).writes →
        p ∈ acc.writes ∨
          p = ("seasons.json",
            OutDoc.manifest { schema_version := 1, seasons := manifestMerge acc.seasons }) := by
      intro p hp
      rcases finishRun_writes mOk acc with hw | ⟨-, -, hw⟩
      · rw [hw] at hp
        exact Or.inl hp
      · rw [hw] at hp
        rcases List.mem_append.mp hp with hp | hp
        · exact Or.inl hp
        · simp only [List.mem_singleton] at hp
          exact Or.inr hp
    refine ⟨?_, ?_, ?_⟩
    · intro fn d h
      rcases hwrites _ h with h | h
      · exact hdoc fn d h
      · obtain ⟨-, h2⟩ := Prod.mk.injEq .. |>.mp h
        cases h2
    · intro s h
      rw [finishRun_seasons] at h
      exact hsum s h
    · intro fn m h
      rcases hwrites _ h with h | h
      · obtain ⟨fn', d', hd'⟩ := hshape _ h
        obtain ⟨-, h2⟩ := Prod.mk.injEq .. |>.mp hd'
        cases h2
      · obtain ⟨-, h2⟩ := Prod.mk.injEq .. |>.mp h
        injection h2 with h2
        subst h2
        intro s hs
        have hmem := (manifestMerge_mem_iff acc.seasons s).mp hs
        exact hsum s (lastWithKey_mem hmem).1

/-- A candidate file whose stem has no season pattern. -/
def fileNoSeason : FileInput :=
  { name := "report_finale.xls", isFile := true, readResult := .ok [], writeOk := true }

/-- Witness for C8: a run over one file with no extractable season
produces zero summaries, hence writes nothing at all. -/
theorem C8_witness :
    (_process_files [fileNoSeason] "NOW" false true).writes = [] :=
  (C8_no_manifest_without_summaries [fileNoSeason] "NOW" false true).1
    (by with_unfolding_all rfl)

/-- A valid 34-column table with one row. -/
def tableAllRequired : Table := REQUIRED_COLUMNS.map (fun c => (c, [Cell.str "x"]))

/-- A well-formed candidate file for season 2020/2021. -/
def fileSeason : FileInput :=
  { name := "export_2020_2021.xlsx", isFile := true,
    readResult := .ok tableAllRequired, writeOk := true }

/-- The season document the raw-mode run over `fileSeason` writes. -/
def docSeason : SeasonDoc :=
  { schema_version := 1, season_label := "2020/2021", season_key := "2020_2021",
    generated_at := "NOW", columns := columnsOf tableAllRequired,
    players := docPlayers tableAllRequired }

/-- Witness for C9: the document written by a concrete raw-mode run
carries the run timestamp. -/
theorem C9_witness : docSeason.generated_at = "NOW" :=
  (C9_single_run_timestamp [fileSeason] "NOW" true true).1 "2020_2021.json" docSeason
    (of_decide_eq_true (by with_unfolding_all rfl))

end FCM
